import Mathlib

/-!
Shallow embedding of the `futuro` crate (src/src/lib.rs, src/src/infinite_stream.rs).

A future (or infinite stream) over state type `σ` with item type `α` is modelled
as a pure step function `σ → σ × Async α`: one call of `poll` advances the state
and reports readiness.  Combinators are state machines over such step functions,
mirroring the Rust enums/structs.  A combinator whose `poll` can panic
("cannot poll ... twice") returns `Option (state × Async item)`, with `none`
standing for the abort.
-/

set_option autoImplicit false

namespace Futuro

/-- The `Async<T>` result of one poll attempt (lib.rs lines 10-13). -/
inductive Async (α : Type) where
  | NotReady : Async α
  | Ready : α → Async α
deriving DecidableEq, Repr

namespace Async

/-- Embeds `Async::is_not_ready` (lib.rs lines 16-21). -/
def is_not_ready {α : Type} : Async α → Bool
  | NotReady => true
  | _ => false

/-- Embeds `Async::is_ready` (lib.rs lines 23-25). -/
def is_ready {α : Type} (x : Async α) : Bool :=
  !x.is_not_ready

/-- Embeds `Async::map` (lib.rs lines 27-34). -/
def map {α β : Type} (f : α → β) : Async α → Async β
  | NotReady => NotReady
  | Ready t => Ready (f t)

end Async

/-- State of the `AndThen` future combinator (lib.rs lines 92-96).
`First` holds the inner future A and the factory `F : A::Item -> B`
(the factory returns the initial state of the produced future B, whose
step function is a fixed parameter of `poll`). -/
inductive AndThen (σA σB α : Type) where
  | First : σA → (α → σB) → AndThen σA σB α
  | Second : σB → AndThen σA σB α
  | Done : AndThen σA σB α

/-- The tail of `AndThen::poll` (lib.rs lines 122-131): poll the future B that
both the `First`-resolved and the `Second` branch fall through to. -/
def AndThen.pollSecond {σA σB α β : Type} (pb : σB → σB × Async β) (b : σB) :
    AndThen σA σB α × Async β :=
  match pb b with
  | (b', Async.NotReady) => (AndThen.Second b', Async.NotReady)
  | (_, Async.Ready c) => (AndThen.Done, Async.Ready c)

/-- Embeds `AndThen::poll` (lib.rs lines 105-132).  `none` is the
"cannot poll `and_then` twice" panic. -/
def AndThen.poll {σA σB α β : Type} (pa : σA → σA × Async α) (pb : σB → σB × Async β) :
    AndThen σA σB α → Option (AndThen σA σB α × Async β)
  | AndThen.First a f =>
    match pa a with
    | (a', Async.NotReady) => some (AndThen.First a' f, Async.NotReady)
    | (_, Async.Ready av) => some (AndThen.pollSecond pb (f av))
  | AndThen.Second b => some (AndThen.pollSecond pb b)
  | AndThen.Done => none

/-- State of the `Fuse` combinator (lib.rs lines 136-138): the
`future: Option<A>` slot. -/
abbrev Fuse (σA : Type) := Option σA

/-- Embeds `Fuse::poll` (lib.rs lines 145-153).  Never panics, hence no
`Option` on the result. -/
def Fuse.poll {σA α : Type} (pa : σA → σA × Async α) : Fuse σA → Fuse σA × Async α
  | none => (none, Async.NotReady)
  | some sa =>
    match pa sa with
    | (_, Async.Ready a) => (none, Async.Ready a)
    | (sa', Async.NotReady) => (some sa', Async.NotReady)

/-- State of the `Join` combinator (lib.rs lines 157-165). -/
inductive Join (σA σB α β : Type) where
  | BothRunning : σA → σB → Join σA σB α β
  | Done : Join σA σB α β
  | FirstDone : α → σB → Join σA σB α β
  | SecondDone : σA → β → Join σA σB α β
deriving DecidableEq

/-- Embeds `Join::poll` (lib.rs lines 173-216).  `none` is the
"cannot poll `join` twice" panic. -/
def Join.poll {σA σB α β : Type} (pa : σA → σA × Async α) (pb : σB → σB × Async β) :
    Join σA σB α β → Option (Join σA σB α β × Async (α × β))
  | Join.BothRunning a b =>
    match pa a, pb b with
    | (a', Async.NotReady), (b', Async.NotReady) =>
      some (Join.BothRunning a' b', Async.NotReady)
    | (a', Async.NotReady), (_, Async.Ready bv) =>
      some (Join.SecondDone a' bv, Async.NotReady)
    | (_, Async.Ready av), (b', Async.NotReady) =>
      some (Join.FirstDone av b', Async.NotReady)
    | (_, Async.Ready av), (_, Async.Ready bv) =>
      some (Join.Done, Async.Ready (av, bv))
  | Join.Done => none
  | Join.FirstDone av b =>
    match pb b with
    | (b', Async.NotReady) => some (Join.FirstDone av b', Async.NotReady)
    | (_, Async.Ready bv) => some (Join.Done, Async.Ready (av, bv))
  | Join.SecondDone a bv =>
    match pa a with
    | (a', Async.NotReady) => some (Join.SecondDone a' bv, Async.NotReady)
    | (_, Async.Ready av) => some (Join.Done, Async.Ready (av, bv))

/-- State of the `Map` future combinator (lib.rs lines 220-223): the inner
future and the single-use transform in its optional slot. -/
structure Map (σA α β : Type) where
  future : σA
  f : Option (α → β)

/-- Embeds `Map::poll` (lib.rs lines 231-241).  `none` is the
"cannot poll `map` twice" panic fired by `expect` when the transform slot is
already empty; on an inner `NotReady` the transform is put back into the slot. -/
def Map.poll {σA α β : Type} (pa : σA → σA × Async α) :
    Map σA α β → Option (Map σA α β × Async β)
  | ⟨_, none⟩ => none
  | ⟨sa, some f⟩ =>
    match pa sa with
    | (sa', Async.Ready t) => some (⟨sa', none⟩, Async.Ready (f t))
    | (sa', Async.NotReady) => some (⟨sa', some f⟩, Async.NotReady)

/-- The `SelectNext` leftover of a `select` race (lib.rs lines 274-278). -/
inductive SelectNext (σA σB : Type) where
  | A : σA → SelectNext σA σB
  | B : σB → SelectNext σA σB
  | Done : SelectNext σA σB
deriving DecidableEq

/-- State of the `Select` combinator (lib.rs lines 245-247): the
`state: Option<(A, B)>` slot. -/
abbrev Select (σA σB : Type) := Option (σA × σB)

/-- Embeds `Select::poll` (lib.rs lines 255-271).  `none` is the
"cannot poll `select` twice" panic.  A is polled first; only when A is
`NotReady` is B polled, and the loser is handed back inside `SelectNext`
(A in its post-poll state, B untouched). -/
def Select.poll {σA σB α : Type} (pa : σA → σA × Async α) (pb : σB → σB × Async α) :
    Select σA σB → Option (Select σA σB × Async (α × SelectNext σA σB))
  | none => none
  | some (a, b) =>
    match pa a with
    | (_, Async.Ready av) => some (none, Async.Ready (av, SelectNext.B b))
    | (a', Async.NotReady) =>
      match pb b with
      | (_, Async.Ready bv) => some (none, Async.Ready (bv, SelectNext.A a'))
      | (b', Async.NotReady) => some (some (a', b'), Async.NotReady)

/-- Embeds `SelectNext::poll` (lib.rs lines 286-310).  `none` is the
"cannot poll `SelectNext` twice" panic. -/
def SelectNext.poll {σA σB α : Type} (pa : σA → σA × Async α) (pb : σB → σB × Async α) :
    SelectNext σA σB → Option (SelectNext σA σB × Async α)
  | SelectNext.A a =>
    match pa a with
    | (a', Async.NotReady) => some (SelectNext.A a', Async.NotReady)
    | (_, Async.Ready v) => some (SelectNext.Done, Async.Ready v)
  | SelectNext.B b =>
    match pb b with
    | (b', Async.NotReady) => some (SelectNext.B b', Async.NotReady)
    | (_, Async.Ready v) => some (SelectNext.Done, Async.Ready v)
  | SelectNext.Done => none

/-- The merged item of two simultaneously-driven streams
(infinite_stream.rs lines 150-154). -/
inductive MergedItem (α β : Type) where
  | First : α → MergedItem α β
  | Second : β → MergedItem α β
  | Both : α → β → MergedItem α β
deriving DecidableEq

/-- State of the infinite-stream `Merge` combinator
(infinite_stream.rs lines 123-126). -/
structure Merge (σA σB : Type) where
  a : σA
  b : σB

/-- Embeds `Merge::poll` (infinite_stream.rs lines 134-147): both streams are
polled exactly once per call, and the outcome reports every item obtained. -/
def Merge.poll {σA σB α β : Type} (pa : σA → σA × Async α) (pb : σB → σB × Async β) :
    Merge σA σB → Merge σA σB × Async (MergedItem α β)
  | ⟨sa, sb⟩ =>
    match pa sa, pb sb with
    | (sa', Async.NotReady), (sb', Async.NotReady) =>
      (⟨sa', sb'⟩, Async.NotReady)
    | (sa', Async.NotReady), (sb', Async.Ready bv) =>
      (⟨sa', sb'⟩, Async.Ready (MergedItem.Second bv))
    | (sa', Async.Ready av), (sb', Async.NotReady) =>
      (⟨sa', sb'⟩, Async.Ready (MergedItem.First av))
    | (sa', Async.Ready av), (sb', Async.Ready bv) =>
      (⟨sa', sb'⟩, Async.Ready (MergedItem.Both av bv))

/-- Embeds `Future::wait` (lib.rs lines 80-88): spin-poll until `Ready`.
The Rust loop is unbounded; here `fuel` bounds the number of `poll` calls
allowed, and `none` means the loop had not yet observed `Ready` after `fuel`
polls.  `wait poll fuel s = some v` exactly when the busy-spin loop started at
`s` returns `v` within `fuel` poll calls. -/
def wait {σ α : Type} (poll : σ → σ × Async α) : Nat → σ → Option α
  | 0, _ => none
  | fuel + 1, s =>
    match poll s with
    | (_, Async.Ready v) => some v
    | (s', Async.NotReady) => wait poll fuel s'

/-- Driver for panicking combinators: `iterPoll step s n` is the result of the
(n+1)-th call of `poll` when a driver repeatedly polls from state `s`;
`none` if some call up to that point panicked. -/
def iterPoll {σ γ : Type} (step : σ → Option (σ × Async γ)) : σ → Nat → Option (σ × Async γ)
  | s, 0 => step s
  | s, n + 1 =>
    match step s with
    | none => none
    | some (s', _) => iterPoll step s' n

/-- Driver for non-panicking step functions: `iterPollP step s n` is the
(state, result) of the (n+1)-th call of `poll` from state `s`. -/
def iterPollP {σ γ : Type} (step : σ → σ × Async γ) : σ → Nat → σ × Async γ
  | s, 0 => step s
  | s, n + 1 => iterPollP step (step s).1 n

/-- A primitive future (or stream source) that returns `NotReady` on its first
`k` polls and `Ready v` on every later poll; the state is the number of
remaining not-ready polls.  Instantiates the spec's "a future that resolves to
`v` after exactly `k` not-ready polls". -/
def cdPoll {α : Type} (v : α) : Nat → Nat × Async α
  | 0 => (0, Async.Ready v)
  | n + 1 => (n, Async.NotReady)

/-- C8: `Async.map` satisfies the functor laws: mapping the identity is the
identity (`NotReady` stays untouched, `Ready v` becomes `Ready (id v)`), and
mapping `f` then `g` equals mapping `g ∘ f`. -/
theorem async_map_functor_laws {α β γ : Type} (x : Async α) (f : α → β) (g : β → γ) (v : α) :
    Async.map id x = x
      ∧ Async.map g (Async.map f x) = Async.map (g ∘ f) x
      ∧ Async.map f (Async.NotReady : Async α) = Async.NotReady
      ∧ Async.map f (Async.Ready v) = Async.Ready (id (f v)) := by
  refine ⟨?_, ?_, rfl, rfl⟩ <;> cases x <;> simp [Async.map]

/-- C4: whenever a poll of `Join` returns `NotReady`, the pending inner
future(s) and any already-obtained result survive into the state written back:
from both-running with both sides not ready the state re-enters both-running
with the (polled) inner futures A and B, and from a first-done/second-done
state with the pending side not ready that state is written back with the
retained value unchanged. -/
theorem join_preserves_state {σA σB α β : Type}
    (pa : σA → σA × Async α) (pb : σB → σB × Async β)
    (sa sa' : σA) (sb sb' : σB) (x : α) (y : β)
    (ha : pa sa = (sa', Async.NotReady)) (hb : pb sb = (sb', Async.NotReady)) :
    Join.poll pa pb (Join.BothRunning sa sb)
        = some (Join.BothRunning sa' sb', Async.NotReady)
      ∧ Join.poll pa pb (Join.FirstDone x sb)
        = some (Join.FirstDone x sb', Async.NotReady)
      ∧ Join.poll pa pb (Join.SecondDone sa y)
        = some (Join.SecondDone sa' y, Async.NotReady) := by
  refine ⟨?_, ?_, ?_⟩ <;> simp [Join.poll, ha, hb]

/-- Witness for C4 at concrete countdown futures. -/
theorem join_preserves_state_witness :
    Join.poll (cdPoll 5) (cdPoll 7) (Join.BothRunning 2 3)
        = some (Join.BothRunning 1 2, Async.NotReady)
      ∧ Join.poll (cdPoll 5) (cdPoll 7) (Join.FirstDone 5 3)
        = some (Join.FirstDone 5 2, Async.NotReady)
      ∧ Join.poll (cdPoll 5) (cdPoll 7) (Join.SecondDone 2 7)
        = some (Join.SecondDone 1 7, Async.NotReady) :=
  join_preserves_state (cdPoll 5) (cdPoll 7) 2 1 3 2 5 7 rfl rfl

/-- C7: each poll of `Merge` polls both streams exactly once (both states
advance every call) and the emitted item is determined by joint readiness:
both not ready gives `NotReady`, one side ready emits that side's item, and
both ready in the same call emits a combined `Both` value carrying the two
items. -/
theorem merge_completeness {σA σB α β : Type}
    (pa : σA → σA × Async α) (pb : σB → σB × Async β)
    (sa sa' : σA) (sb sb' : σB) (x : α) (y : β) :
    (pa sa = (sa', Async.NotReady) → pb sb = (sb', Async.NotReady) →
      Merge.poll pa pb ⟨sa, sb⟩ = (⟨sa', sb'⟩, Async.NotReady))
      ∧ (pa sa = (sa', Async.Ready x) → pb sb = (sb', Async.NotReady) →
        Merge.poll pa pb ⟨sa, sb⟩ = (⟨sa', sb'⟩, Async.Ready (MergedItem.First x)))
      ∧ (pa sa = (sa', Async.NotReady) → pb sb = (sb', Async.Ready y) →
        Merge.poll pa pb ⟨sa, sb⟩ = (⟨sa', sb'⟩, Async.Ready (MergedItem.Second y)))
      ∧ (pa sa = (sa', Async.Ready x) → pb sb = (sb', Async.Ready y) →
        Merge.poll pa pb ⟨sa, sb⟩ = (⟨sa', sb'⟩, Async.Ready (MergedItem.Both x y))) := by
  refine ⟨fun ha hb => ?_, fun ha hb => ?_, fun ha hb => ?_, fun ha hb => ?_⟩ <;>
    simp [Merge.poll, ha, hb]

/-- Witness for C7: simultaneous readiness emits both items. -/
theorem merge_completeness_witness :
    Merge.poll (cdPoll 5) (cdPoll 7) ⟨0, 0⟩
      = (⟨0, 0⟩, Async.Ready (MergedItem.Both 5 7)) :=
  (merge_completeness (cdPoll 5) (cdPoll 7) 0 0 0 0 5 7).2.2.2 rfl rfl

/-- C6: when the inner future of `Fuse` resolves, the slot is cleared and the
value is returned; from the cleared slot every further poll, for any number of
polls, returns `NotReady` (and `Fuse.poll` is a total function, so no poll of
a spent `Fuse` can abort). -/
theorem fuse_idempotent {σA α : Type}
    (pa : σA → σA × Async α) (sa sa2 : σA) (v : α) :
    (pa sa = (sa2, Async.Ready v) →
      Fuse.poll pa (some sa) = (none, Async.Ready v))
      ∧ (∀ n, iterPollP (Fuse.poll pa) (none : Fuse σA) n = (none, Async.NotReady)) := by
  constructor
  · intro ha
    simp [Fuse.poll, ha]
  · intro n
    induction n with
    | zero => rfl
    | succ n ih => simpa [iterPollP, Fuse.poll] using ih

/-- Witness for C6 at a concrete countdown future. -/
theorem fuse_idempotent_witness :
    Fuse.poll (cdPoll 9) (some 0) = (none, Async.Ready 9)
      ∧ iterPollP (Fuse.poll (cdPoll 9)) (none : Fuse Nat) 5 = (none, Async.NotReady) :=
  ⟨(fuse_idempotent (cdPoll 9) 0 0 9).1 rfl, (fuse_idempotent (cdPoll 9) 0 0 9).2 5⟩

/-- C2: `Select` polls A first; if A is ready, the call returns A's value with
B untouched inside the `SelectNext` payload and does not depend on B's step
function at all (B is not polled); only when A is not ready is B polled, and
a ready B wins with `SelectNext` owning A in its post-poll state.  In
particular two futures both ready on the very first poll resolve with A's
value. -/
theorem select_tiebreak_spec {σA σB α : Type}
    (pa : σA → σA × Async α) (pb pb' : σB → σB × Async α)
    (sa sa' : σA) (sb sb' : σB) (v w : α) :
    (pa sa = (sa', Async.Ready v) →
      Select.poll pa pb (some (sa, sb))
          = some (none, Async.Ready (v, SelectNext.B sb))
        ∧ Select.poll pa pb (some (sa, sb)) = Select.poll pa pb' (some (sa, sb)))
      ∧ (pa sa = (sa', Async.NotReady) → pb sb = (sb', Async.Ready w) →
        Select.poll pa pb (some (sa, sb))
          = some (none, Async.Ready (w, SelectNext.A sa')))
      ∧ (∀ (x y : α),
        Select.poll (cdPoll x) (cdPoll y) (some ((0 : Nat), (0 : Nat)))
          = some (none, Async.Ready (x, SelectNext.B 0))) := by
  refine ⟨fun ha => ⟨?_, ?_⟩, fun ha hb => ?_, fun x y => rfl⟩
  · simp [Select.poll, ha]
  · simp [Select.poll, ha]
  · simp [Select.poll, ha, hb]

/-- Witness for C2: A ready on the first poll wins with B untouched; a ready B
wins only under a not-ready A. -/
theorem select_tiebreak_spec_witness :
    Select.poll (cdPoll 3) (cdPoll 4) (some ((0 : Nat), (0 : Nat)))
        = some (none, Async.Ready (3, SelectNext.B 0))
      ∧ Select.poll (cdPoll 3) (cdPoll 4) (some ((1 : Nat), (0 : Nat)))
        = some (none, Async.Ready (4, SelectNext.A 0)) :=
  ⟨((select_tiebreak_spec (cdPoll 3) (cdPoll 4) (cdPoll 4) 0 0 0 0 3 4).1 rfl).1,
    (select_tiebreak_spec (cdPoll 3) (cdPoll 4) (cdPoll 4) 1 0 0 0 3 4).2.1 rfl rfl⟩

/-- C5: for each of the `AndThen`, `Join`, `Map` and `Select` combinators,
whenever a poll returns its final `Ready` value, the very next poll of the
state left behind aborts (`none`, the panic): it returns neither `Ready` nor
`NotReady`; and since every `poll` here is a total function, no poll can
loop. -/
theorem poll_after_ready_aborts {σA σB α β : Type}
    (pa : σA → σA × Async α) (pb : σB → σB × Async β) (pc : σB → σB × Async α) :
    (∀ (s s' : AndThen σA σB α) (v : β),
      AndThen.poll pa pb s = some (s', Async.Ready v) → AndThen.poll pa pb s' = none)
      ∧ (∀ (s s' : Join σA σB α β) (v : α × β),
        Join.poll pa pb s = some (s', Async.Ready v) → Join.poll pa pb s' = none)
      ∧ (∀ (s s' : Map σA α β) (v : β),
        Map.poll pa s = some (s', Async.Ready v) → Map.poll pa s' = none)
      ∧ (∀ (s s' : Select σA σB) (v : α × SelectNext σA σB),
        Select.poll pa pc s = some (s', Async.Ready v) → Select.poll pa pc s' = none) := by
  refine ⟨?_, ?_, ?_, ?_⟩
  · rintro s s' v h
    cases s with
    | Done => simp [AndThen.poll] at h
    | First a f =>
      rcases hpa : pa a with ⟨a2, ra⟩
      cases ra with
      | NotReady => simp [AndThen.poll, hpa] at h
      | Ready av =>
        rcases hpb : pb (f av) with ⟨b2, rb⟩
        cases rb <;> simp [AndThen.poll, AndThen.pollSecond, hpa, hpb] at h
        obtain ⟨h1, h2⟩ := h
        subst h1
        rfl
    | Second b =>
      rcases hpb : pb b with ⟨b2, rb⟩
      cases rb <;> simp [AndThen.poll, AndThen.pollSecond, hpb] at h
      obtain ⟨h1, h2⟩ := h
      subst h1
      rfl
  · rintro s s' v h
    cases s with
    | Done => simp [Join.poll] at h
    | BothRunning a b =>
      rcases hpa : pa a with ⟨a2, ra⟩
      rcases hpb : pb b with ⟨b2, rb⟩
      cases ra <;> cases rb <;> simp [Join.poll, hpa, hpb] at h
      obtain ⟨h1, h2⟩ := h
      subst h1
      rfl
    | FirstDone av b =>
      rcases hpb : pb b with ⟨b2, rb⟩
      cases rb <;> simp [Join.poll, hpb] at h
      obtain ⟨h1, h2⟩ := h
      subst h1
      rfl
    | SecondDone a bv =>
      rcases hpa : pa a with ⟨a2, ra⟩
      cases ra <;> simp [Join.poll, hpa] at h
      obtain ⟨h1, h2⟩ := h
      subst h1
      rfl
  · rintro s s' v h
    rcases s with ⟨sa, fo⟩
    cases fo with
    | none => simp [Map.poll] at h
    | some f =>
      rcases hpa : pa sa with ⟨sa2, ra⟩
      cases ra <;> simp [Map.poll, hpa] at h
      obtain ⟨h1, h2⟩ := h
      subst h1
      rfl
  · rintro s s' v h
    cases s with
    | none => simp [Select.poll] at h
    | some ab =>
      rcases ab with ⟨a, b⟩
      rcases hpa : pa a with ⟨a2, ra⟩
      cases ra with
      | Ready av =>
        simp [Select.poll, hpa] at h
        obtain ⟨h1, h2⟩ := h
        subst h1
        rfl
      | NotReady =>
        rcases hpb : pc b with ⟨b2, rb⟩
        cases rb <;> simp [Select.poll, hpa, hpb] at h
        obtain ⟨h1, h2⟩ := h
        subst h1
        rfl

/-- Witness for C5: each of the four combinators, having just produced its
final `Ready` value from a concrete state, aborts on the next poll. -/
theorem poll_after_ready_aborts_witness :
    AndThen.poll (cdPoll 3) (cdPoll 4) (AndThen.Done : AndThen Nat Nat Nat) = none
      ∧ Join.poll (cdPoll 3) (cdPoll 4) (Join.Done : Join Nat Nat Nat Nat) = none
      ∧ Map.poll (cdPoll 3) (⟨0, none⟩ : Map Nat Nat Nat) = none
      ∧ Select.poll (cdPoll 3) (cdPoll 4) (none : Select Nat Nat) = none :=
  ⟨(poll_after_ready_aborts (cdPoll 3) (cdPoll 4) (cdPoll 4)).1
      (AndThen.Second 0) AndThen.Done 4 rfl,
    (poll_after_ready_aborts (cdPoll 3) (cdPoll 4) (cdPoll 4)).2.1
      (Join.BothRunning 0 0) Join.Done (3, 4) rfl,
    (poll_after_ready_aborts (cdPoll 3) (cdPoll 4) (cdPoll 4)).2.2.1
      ⟨0, some (fun x => x)⟩ ⟨0, none⟩ 3 rfl,
    (poll_after_ready_aborts (cdPoll 3) (cdPoll 4) (cdPoll 4)).2.2.2
      (some (0, 0)) none (3, SelectNext.B 0) rfl⟩

lemma iterPollP_succ {σ γ : Type} (step : σ → σ × Async γ) (s : σ) (n : Nat) :
    iterPollP step s (n + 1) = iterPollP step (step s).1 n :=
  rfl

lemma join_firstDone_iter_ready {σA α β : Type} (pa : σA → σA × Async α) (x : α) (b : β) :
    ∀ m, iterPoll (Join.poll pa (cdPoll b)) (Join.FirstDone x m : Join σA Nat α β) m
      = some (Join.Done, Async.Ready (x, b)) := by
  intro m
  induction m with
  | zero => rfl
  | succ m ih => simpa [iterPoll, Join.poll, cdPoll] using ih

lemma join_firstDone_iter_notReady {σA α β : Type} (pa : σA → σA × Async α) (x : α) (b : β) :
    ∀ n m, n < m →
      (iterPoll (Join.poll pa (cdPoll b)) (Join.FirstDone x m : Join σA Nat α β) n).map Prod.snd
        = some Async.NotReady := by
  intro n
  induction n with
  | zero =>
    intro m hm
    cases m with
    | zero => omega
    | succ m' => simp [iterPoll, Join.poll, cdPoll]
  | succ n ih =>
    intro m hm
    cases m with
    | zero => omega
    | succ m' =>
      simpa [iterPoll, Join.poll, cdPoll] using ih m' (by omega)

lemma join_secondDone_iter_ready {σB α β : Type} (pb : σB → σB × Async β) (a : α) (y : β) :
    ∀ k, iterPoll (Join.poll (cdPoll a) pb) (Join.SecondDone k y : Join Nat σB α β) k
      = some (Join.Done, Async.Ready (a, y)) := by
  intro k
  induction k with
  | zero => rfl
  | succ k ih => simpa [iterPoll, Join.poll, cdPoll] using ih

lemma join_secondDone_iter_notReady {σB α β : Type} (pb : σB → σB × Async β) (a : α) (y : β) :
    ∀ n k, n < k →
      (iterPoll (Join.poll (cdPoll a) pb) (Join.SecondDone k y : Join Nat σB α β) n).map Prod.snd
        = some Async.NotReady := by
  intro n
  induction n with
  | zero =>
    intro k hk
    cases k with
    | zero => omega
    | succ k' => simp [iterPoll, Join.poll, cdPoll]
  | succ n ih =>
    intro k hk
    cases k with
    | zero => omega
    | succ k' =>
      simpa [iterPoll, Join.poll, cdPoll] using ih k' (by omega)

lemma natMax_zero_left (m : Nat) : Nat.max 0 m = m := by
  simp [Nat.max]

lemma natMax_zero_right (k : Nat) : Nat.max k 0 = k := by
  simp [Nat.max]

lemma natMax_succ_succ (k m : Nat) : Nat.max (k + 1) (m + 1) = Nat.max k m + 1 :=
  Nat.succ_max_succ k m

lemma join_bothRunning_iter_ready {α β : Type} (a : α) (b : β) :
    ∀ k m, iterPoll (Join.poll (cdPoll a) (cdPoll b)) (Join.BothRunning k m) (Nat.max k m)
      = some (Join.Done, Async.Ready (a, b)) := by
  intro k
  induction k with
  | zero =>
    intro m
    cases m with
    | zero => rfl
    | succ m' =>
      rw [natMax_zero_left]
      simpa [iterPoll, Join.poll, cdPoll] using join_firstDone_iter_ready (cdPoll a) a b m'
  | succ k' ih =>
    intro m
    cases m with
    | zero =>
      rw [natMax_zero_right]
      simpa [iterPoll, Join.poll, cdPoll] using join_secondDone_iter_ready (cdPoll b) a b k'
    | succ m' =>
      rw [natMax_succ_succ]
      simpa [iterPoll, Join.poll, cdPoll] using ih m'

lemma join_bothRunning_iter_notReady {α β : Type} (a : α) (b : β) :
    ∀ n k m, n < Nat.max k m →
      (iterPoll (Join.poll (cdPoll a) (cdPoll b)) (Join.BothRunning k m) n).map Prod.snd
        = some Async.NotReady := by
  intro n
  induction n with
  | zero =>
    intro k m h
    cases k with
    | zero =>
      cases m with
      | zero => rw [natMax_zero_left] at h; omega
      | succ m' => simp [iterPoll, Join.poll, cdPoll]
    | succ k' =>
      cases m with
      | zero => simp [iterPoll, Join.poll, cdPoll]
      | succ m' => simp [iterPoll, Join.poll, cdPoll]
  | succ n ih =>
    intro k m h
    cases k with
    | zero =>
      cases m with
      | zero => rw [natMax_zero_left] at h; omega
      | succ m' =>
        rw [natMax_zero_left] at h
        simpa [iterPoll, Join.poll, cdPoll] using
          join_firstDone_iter_notReady (cdPoll a) a b n m' (by omega)
    | succ k' =>
      cases m with
      | zero =>
        rw [natMax_zero_right] at h
        simpa [iterPoll, Join.poll, cdPoll] using
          join_secondDone_iter_notReady (cdPoll b) a b n k' (by omega)
      | succ m' =>
        rw [natMax_succ_succ] at h
        simpa [iterPoll, Join.poll, cdPoll] using ih k' m' (by omega)

/-- C1: joining a future that resolves to `a` after `k` not-ready polls with
one that resolves to `b` after `m` not-ready polls, repeated polling returns
`NotReady` on every poll before poll number `max k m + 1` (so never `Ready`
before both sides have resolved) and returns `Ready (a, b)` on that poll.
Moreover once one side has resolved, further polls touch only the pending
side: the result from a first-done (resp. second-done) state does not depend
on A's (resp. B's) step function at all, and the retained value is carried
into the written-back state or the final pair, never re-constructed. -/
theorem join_resolution_spec {σA σB α β : Type} (k m : Nat) (a : α) (b : β)
    (pa pa' : σA → σA × Async α) (pb pb' : σB → σB × Async β) :
    (∀ n, n < Nat.max k m →
      (iterPoll (Join.poll (cdPoll a) (cdPoll b)) (Join.BothRunning k m) n).map Prod.snd
        = some Async.NotReady)
      ∧ iterPoll (Join.poll (cdPoll a) (cdPoll b)) (Join.BothRunning k m) (Nat.max k m)
        = some (Join.Done, Async.Ready (a, b))
      ∧ (∀ (x : α) (sb : σB),
        Join.poll pa pb (Join.FirstDone x sb) = Join.poll pa' pb (Join.FirstDone x sb))
      ∧ (∀ (sa : σA) (y : β),
        Join.poll pa pb (Join.SecondDone sa y) = Join.poll pa pb' (Join.SecondDone sa y))
      ∧ (∀ (x : α) (sb sb2 : σB),
        pb sb = (sb2, Async.NotReady) →
        Join.poll pa pb (Join.FirstDone x sb) = some (Join.FirstDone x sb2, Async.NotReady))
      ∧ (∀ (x : α) (sb sb2 : σB) (y : β),
        pb sb = (sb2, Async.Ready y) →
        Join.poll pa pb (Join.FirstDone x sb) = some (Join.Done, Async.Ready (x, y))) := by
  refine ⟨fun n hn => join_bothRunning_iter_notReady a b n k m hn,
    join_bothRunning_iter_ready a b k m, fun x sb => rfl, fun sa y => rfl,
    fun x sb sb2 hb => by simp [Join.poll, hb],
    fun x sb sb2 y hb => by simp [Join.poll, hb]⟩

/-- Witness for C1 at countdown futures with `k = 2`, `m = 1`. -/
theorem join_resolution_spec_witness :
    (iterPoll (Join.poll (cdPoll 5) (cdPoll 7)) (Join.BothRunning 2 1) 1).map Prod.snd
        = some Async.NotReady
      ∧ iterPoll (Join.poll (cdPoll 5) (cdPoll 7)) (Join.BothRunning 2 1) 2
        = some (Join.Done, Async.Ready (5, 7))
      ∧ Join.poll (cdPoll 5) (cdPoll 7) (Join.FirstDone 5 1)
        = some (Join.FirstDone 5 0, Async.NotReady) :=
  ⟨(join_resolution_spec 2 1 5 7 (cdPoll 5) (cdPoll 5) (cdPoll 7) (cdPoll 7)).1 1 (by decide),
    (join_resolution_spec 2 1 5 7 (cdPoll 5) (cdPoll 5) (cdPoll 7) (cdPoll 7)).2.1,
    (join_resolution_spec 2 1 5 7 (cdPoll 5) (cdPoll 5) (cdPoll 7) (cdPoll 7)).2.2.2.2.1
      5 1 0 rfl⟩

lemma andThen_second_iter_ready {σA α β : Type} (pa : σA → σA × Async α) (c : β) :
    ∀ m, iterPoll (AndThen.poll pa (cdPoll c)) (AndThen.Second m : AndThen σA Nat α) m
      = some (AndThen.Done, Async.Ready c) := by
  intro m
  induction m with
  | zero => rfl
  | succ m ih => simpa [iterPoll, AndThen.poll, AndThen.pollSecond, cdPoll] using ih

lemma andThen_second_iter_notReady {σA α β : Type} (pa : σA → σA × Async α) (c : β) :
    ∀ n m, n < m →
      (iterPoll (AndThen.poll pa (cdPoll c))
          (AndThen.Second m : AndThen σA Nat α) n).map Prod.snd
        = some Async.NotReady := by
  intro n
  induction n with
  | zero =>
    intro m hm
    cases m with
    | zero => omega
    | succ m' => simp [iterPoll, AndThen.poll, AndThen.pollSecond, cdPoll]
  | succ n ih =>
    intro m hm
    cases m with
    | zero => omega
    | succ m' =>
      simpa [iterPoll, AndThen.poll, AndThen.pollSecond, cdPoll] using ih m' (by omega)

lemma andThen_first_iter_ready {α β : Type} (a : α) (c : β) :
    ∀ k m, iterPoll (AndThen.poll (cdPoll a) (cdPoll c))
        (AndThen.First k (fun _ => m) : AndThen Nat Nat α) (k + m)
      = some (AndThen.Done, Async.Ready c) := by
  intro k
  induction k with
  | zero =>
    intro m
    cases m with
    | zero => rfl
    | succ m' =>
      rw [Nat.zero_add]
      simpa [iterPoll, AndThen.poll, AndThen.pollSecond, cdPoll] using
        andThen_second_iter_ready (cdPoll a) c m'
  | succ k' ih =>
    intro m
    have hs : k' + 1 + m = (k' + m) + 1 := by omega
    rw [hs]
    simpa [iterPoll, AndThen.poll, cdPoll] using ih m

lemma andThen_first_iter_notReady {α β : Type} (a : α) (c : β) :
    ∀ n k m, n < k + m →
      (iterPoll (AndThen.poll (cdPoll a) (cdPoll c))
          (AndThen.First k (fun _ => m) : AndThen Nat Nat α) n).map Prod.snd
        = some Async.NotReady := by
  intro n
  induction n with
  | zero =>
    intro k m h
    cases k with
    | zero =>
      cases m with
      | zero => omega
      | succ m' => simp [iterPoll, AndThen.poll, AndThen.pollSecond, cdPoll]
    | succ k' => simp [iterPoll, AndThen.poll, cdPoll]
  | succ n ih =>
    intro k m h
    cases k with
    | zero =>
      cases m with
      | zero => omega
      | succ m' =>
        simpa [iterPoll, AndThen.poll, AndThen.pollSecond, cdPoll] using
          andThen_second_iter_notReady (cdPoll a) c n m' (by omega)
    | succ k' =>
      simpa [iterPoll, AndThen.poll, cdPoll] using ih k' m (by omega)

/-- C3: sequencing a future that resolves to `a` after `k` not-ready polls
with a factory whose produced future resolves to `c` after `m` not-ready
polls, `and_then` returns `NotReady` on exactly the first `k + m` polls and
`Ready c` on poll `k + m + 1`; and on the poll in which A resolves, the
produced future is constructed and polled within that same call (the result
of that call is exactly the fall-through poll of `f(a)`), so no extra driver
round-trip separates A's resolution from B's first poll. -/
theorem andThen_sequencing_spec {σA σB α β : Type} (k m : Nat) (a : α) (c : β)
    (pa : σA → σA × Async α) (pb : σB → σB × Async β)
    (sa sa' : σA) (av : α) (f : α → σB) :
    (∀ n, n < k + m →
      (iterPoll (AndThen.poll (cdPoll a) (cdPoll c))
          (AndThen.First k (fun _ => m) : AndThen Nat Nat α) n).map Prod.snd
        = some Async.NotReady)
      ∧ iterPoll (AndThen.poll (cdPoll a) (cdPoll c))
          (AndThen.First k (fun _ => m) : AndThen Nat Nat α) (k + m)
        = some (AndThen.Done, Async.Ready c)
      ∧ (pa sa = (sa', Async.Ready av) →
        AndThen.poll pa pb (AndThen.First sa f) = some (AndThen.pollSecond pb (f av))) := by
  refine ⟨fun n hn => andThen_first_iter_notReady a c n k m hn,
    andThen_first_iter_ready a c k m, fun ha => by simp [AndThen.poll, ha]⟩

/-- Witness for C3 at `k = 1`, `m = 2`: three not-ready polls, then ready. -/
theorem andThen_sequencing_spec_witness :
    (iterPoll (AndThen.poll (cdPoll 5) (cdPoll 9))
        (AndThen.First 1 (fun _ => 2) : AndThen Nat Nat Nat) 2).map Prod.snd
      = some Async.NotReady
      ∧ iterPoll (AndThen.poll (cdPoll 5) (cdPoll 9))
          (AndThen.First 1 (fun _ => 2) : AndThen Nat Nat Nat) 3
        = some (AndThen.Done, Async.Ready 9)
      ∧ AndThen.poll (cdPoll 5) (cdPoll 9) (AndThen.First 0 (fun _ => 2))
        = some (AndThen.pollSecond (cdPoll 9) 2) :=
  ⟨(andThen_sequencing_spec 1 2 5 9 (cdPoll 5) (cdPoll 9) 0 0 5 (fun _ => 2)).1 2 (by decide),
    (andThen_sequencing_spec 1 2 5 9 (cdPoll 5) (cdPoll 9) 0 0 5 (fun _ => 2)).2.1,
    (andThen_sequencing_spec 1 2 5 9 (cdPoll 5) (cdPoll 9) 0 0 5 (fun _ => 2)).2.2 rfl⟩

/-- C9: on a future whose first `N` polls return `NotReady` and whose poll
`N + 1` returns `Ready v`, the busy-spin `wait` loop succeeds with `v` when
allowed exactly `N + 1` poll calls and has not yet succeeded when allowed only
`N`: it performs exactly `N + 1` poll calls, back to back, and returns `v`. -/
lemma wait_succ {σ α : Type} (step : σ → σ × Async α) (fuel : Nat) (s s' : σ)
    (h : step s = (s', Async.NotReady)) :
    wait step (fuel + 1) s = wait step fuel s' := by
  simp only [wait, h]

theorem wait_poll_count {σ α : Type} (step : σ → σ × Async α) (s0 : σ) (N : Nat) (v : α)
    (hnr : ∀ n, n < N → (iterPollP step s0 n).2 = Async.NotReady)
    (hr : (iterPollP step s0 N).2 = Async.Ready v) :
    wait step (N + 1) s0 = some v ∧ wait step N s0 = none := by
  induction N generalizing s0 with
  | zero =>
    constructor
    · rcases hs : step s0 with ⟨s1, r⟩
      have h0 : r = Async.Ready v := by
        have h := hr
        rw [show iterPollP step s0 0 = step s0 from rfl, hs] at h
        exact h
      subst h0
      simp [wait, hs]
    · rfl
  | succ N ih =>
    rcases hs : step s0 with ⟨s1, r⟩
    have h0 : r = Async.NotReady := by
      have h := hnr 0 (Nat.succ_pos N)
      rw [show iterPollP step s0 0 = step s0 from rfl, hs] at h
      exact h
    subst h0
    have hnr' : ∀ n, n < N → (iterPollP step s1 n).2 = Async.NotReady := by
      intro n hn
      have h := hnr (n + 1) (by omega)
      rw [iterPollP_succ, hs] at h
      exact h
    have hr' : (iterPollP step s1 N).2 = Async.Ready v := by
      have h := hr
      rw [iterPollP_succ, hs] at h
      exact h
    obtain ⟨ih1, ih2⟩ := ih s1 hnr' hr'
    exact ⟨by rw [wait_succ step (N + 1) s0 s1 hs]; exact ih1,
      by rw [wait_succ step N s0 s1 hs]; exact ih2⟩

/-- Witness for C9 at a countdown future with `N = 2`. -/
theorem wait_poll_count_witness :
    wait (cdPoll 42) 3 2 = some 42 ∧ wait (cdPoll 42) 2 2 = none :=
  wait_poll_count (cdPoll 42) 2 2 42 (by decide) (by decide)

/-- C10: as long as every poll of the inner future so far has returned
`NotReady`, polling `Map` any number of times neither aborts nor loses the
single-use transform: each such poll returns `NotReady` and writes the
transform back into its slot, so the "cannot poll `map` twice" abort is
unreachable before `Map` has returned `Ready`. -/
theorem map_no_abort_before_ready {σA α β : Type} (pa : σA → σA × Async α)
    (f : α → β) (s0 : σA) (n : Nat)
    (h : ∀ i, i ≤ n → (iterPollP pa s0 i).2 = Async.NotReady) :
    iterPoll (Map.poll pa) (⟨s0, some f⟩ : Map σA α β) n
      = some (⟨(iterPollP pa s0 n).1, some f⟩, Async.NotReady) := by
  induction n generalizing s0 with
  | zero =>
    rcases hs : pa s0 with ⟨s1, r⟩
    have h0 : r = Async.NotReady := by
      have hh := h 0 (Nat.le_refl 0)
      rw [show iterPollP pa s0 0 = pa s0 from rfl, hs] at hh
      exact hh
    subst h0
    rw [show iterPollP pa s0 0 = pa s0 from rfl, hs]
    simp [iterPoll, Map.poll, hs]
  | succ n ih =>
    rcases hs : pa s0 with ⟨s1, r⟩
    have h0 : r = Async.NotReady := by
      have hh := h 0 (Nat.zero_le _)
      rw [show iterPollP pa s0 0 = pa s0 from rfl, hs] at hh
      exact hh
    subst h0
    have h' : ∀ i, i ≤ n → (iterPollP pa s1 i).2 = Async.NotReady := by
      intro i hi
      have hh := h (i + 1) (by omega)
      rw [iterPollP_succ, hs] at hh
      exact hh
    have hrec := ih s1 h'
    rw [iterPollP_succ, hs]
    simpa [iterPoll, Map.poll, hs] using hrec

/-- Witness for C10: three not-ready polls of a countdown inner future keep
the transform in its slot with no abort. -/
theorem map_no_abort_before_ready_witness :
    iterPoll (Map.poll (cdPoll 9)) (⟨3, some (fun x => x + 1)⟩ : Map Nat Nat Nat) 2
      = some (⟨0, some (fun x => x + 1)⟩, Async.NotReady) :=
  map_no_abort_before_ready (cdPoll 9) (fun x => x + 1) 3 2 (by decide)

end Futuro
